import Mathlib

/-!
Verification development for the `vectfit` routine of `src/vectfit.cpp`
(fast relaxed vector fitting).  The C++ routine is shallowly embedded over an
arbitrary linear ordered field `K` standing for the machine doubles; complex
doubles become pairs `Cx K`.  External LAPACK/BLAS routines reached through
`xt::linalg` (`qr`, `lstsq`, `eigvals`) and the libm `sqrt` are not part of
this repository and are modelled as components of an `Env K` parameter; every
other computation is translated directly from the source.  IEEE non-finite
values can arise in the partial-fraction basis only from a vanishing
denominator; they are tracked by `Option`-valued "raw" twins of the basis
entry functions, `none` standing for a non-finite double.
-/

namespace VectFit

/-- Complex scalar over `K`, modelling `std::complex<double>`. -/
structure Cx (K : Type) where
  re : K
  im : K
deriving DecidableEq

variable {K : Type} [LinearOrderedField K] [DecidableEq K]

instance : Zero (Cx K) := ⟨⟨0, 0⟩⟩

instance : One (Cx K) := ⟨⟨1, 0⟩⟩

instance : Add (Cx K) := ⟨fun a b => ⟨a.re + b.re, a.im + b.im⟩⟩

instance : Sub (Cx K) := ⟨fun a b => ⟨a.re - b.re, a.im - b.im⟩⟩

instance : Neg (Cx K) := ⟨fun a => ⟨-a.re, -a.im⟩⟩

instance : Mul (Cx K) :=
  ⟨fun a b => ⟨a.re * b.re - a.im * b.im, a.re * b.im + a.im * b.re⟩⟩

/-- Complex conjugate, modelling `std::conj`. -/
def Cx.conj (z : Cx K) : Cx K := ⟨z.re, -z.im⟩

/-- Squared magnitude of a complex scalar. -/
def Cx.abs2 (z : Cx K) : K := z.re * z.re + z.im * z.im

/-- Complex division `a / b` by the usual real-arithmetic formula.  The model
is total: division by the zero denominator yields `⟨0, 0⟩` (`K`-division by
zero is `0`); the IEEE infinity produced there by the C++ code is tracked
separately through the `Option`-valued raw basis entries. -/
def Cx.div (a b : Cx K) : Cx K :=
  ⟨(a.re * b.re + a.im * b.im) / Cx.abs2 b,
   (a.im * b.re - a.re * b.im) / Cx.abs2 b⟩

/-- Real scalar times complex scalar (weighting a basis column). -/
def Cx.rmul (k : K) (z : Cx K) : Cx K := ⟨k * z.re, k * z.im⟩

/-- Sum of a list of complex scalars, modelling `xt::sum` of a column. -/
def csum (l : List (Cx K)) : Cx K := l.foldl (· + ·) 0

/-- Real n-dimensional array: shape vector plus row-major flat data,
modelling `xt::pyarray<double>`. -/
structure RArr (K : Type) where
  shape : List Nat
  data : List K
deriving DecidableEq

/-- Complex n-dimensional array, modelling
`xt::pyarray<std::complex<double>>`. -/
structure CArr (K : Type) where
  shape : List Nat
  data : List (Cx K)
deriving DecidableEq

/-- Total element count of an array, modelling `pyarray::size()`. -/
def RArr.size (a : RArr K) : Nat := a.shape.prod

/-- Total element count of a complex array, modelling `pyarray::size()`. -/
def CArr.size (a : CArr K) : Nat := a.shape.prod

/-- Row-major access `a(n, i)` into a rank-2 array with row length `Ns`. -/
def at2 (a : RArr K) (Ns n i : Nat) : K := a.data.getD (n * Ns + i) 0

/-- Access `s(i)` into the rank-1 sample-point array. -/
def sAt (s : RArr K) (i : Nat) : K := s.data.getD i 0

/-- The error conditions thrown by `vectfit` (lines 69-95, 126-129, 335-338
of vectfit.cpp); `std::invalid_argument` / `std::runtime_error` payloads are
abstracted to this enumeration. -/
inductive VFErr : Type where
  | notRank2F
  | notRank1S
  | lenMismatchS
  | shapeMismatchW
  | badNPolys
  | invalidPoleConfig
deriving DecidableEq

/-- Result record of a `vectfit` call: the returned 5-tuple
`(residues, polys, poles, rmserr, fit)`. -/
structure VFOut (K : Type) where
  residues : CArr K
  polys : RArr K
  poles : CArr K
  rmserr : K
  fit : RArr K
deriving DecidableEq

/-- Output of the residue-identification stage before final packaging:
flat residues (Nv rows times N columns), flat polynomial coefficients,
flat fitted curve, and the RMS error. -/
structure ResOut (K : Type) where
  residues : List (Cx K)
  polys : List K
  fit : List K
  rms : K
deriving DecidableEq

/-- External numeric routines used by vectfit.cpp that live outside this
repository: libm `std::sqrt`, and `xt::linalg::qr` / `lstsq` / `eigvals`
(LAPACK).  `lstsq` returns the solution array of the least-squares problem
(first component of the xtensor-blas tuple), kept two-dimensional because the
source indexes a column of it. -/
structure Env (K : Type) where
  sqrt : K → K
  qr : List (List K) → List (List K) × List (List K)
  lstsq : List (List K) → List K → List (List K)
  eigvals : List (List K) → List (Cx K)

instance {ε α : Type} [DecidableEq ε] [DecidableEq α] : DecidableEq (Except ε α) := fun a b =>
  match a, b with
  | .error x, .error y =>
    if h : x = y then .isTrue (h ▸ rfl) else .isFalse (fun hc => h (by cases hc; rfl))
  | .error _, .ok _ => .isFalse (fun hc => Except.noConfusion hc)
  | .ok _, .error _ => .isFalse (fun hc => Except.noConfusion hc)
  | .ok x, .ok y =>
    if h : x = y then .isTrue (h ▸ rfl) else .isFalse (fun hc => h (by cases hc; rfl))

/-- Sum of squares of a list; `xt::linalg::norm v = env.sqrt (sumSq v)`. -/
def sumSq (l : List K) : K := (l.map (fun x => x * x)).sum

/-- Tolerance `TOLlow = 1e-18` (vectfit.cpp line 59). -/
def TOLlow : K := 1 / 1000000000000000000

/-- Tolerance `TOLhigh = 1e+18` (vectfit.cpp line 60). -/
def TOLhigh : K := 1000000000000000000

/-- Fuel-indexed conjugacy classification scan (see `classifyFrom`): the
fuel bounds the number of remaining positions, so that the recursion is
structural and evaluates inside the kernel; with fuel at least `N - m` it
agrees with the unbounded scan of vectfit.cpp lines 119-136. -/
def classifyFuel (p : List (Cx K)) (N : Nat) : Nat → Nat → Except VFErr (List Nat)
  | 0, _ => .ok []
  | fuel + 1, m =>
    if N ≤ m then .ok []
    else
      if (p.getD m 0).im = 0 then
        match classifyFuel p N fuel (m + 1) with
        | .error e => .error e
        | .ok rest => .ok (0 :: rest)
      else
        if N ≤ m + 1 ∨ Cx.conj (p.getD m 0) ≠ p.getD (m + 1) 0 then .error .invalidPoleConfig
        else
          match classifyFuel p N fuel (m + 2) with
          | .error e => .error e
          | .ok rest => .ok (1 :: 2 :: rest)

/-- Conjugacy classification scan from position `m` (vectfit.cpp lines
119-136 and 328-345).  Produces the `cindex` tags for positions `m, m+1, ...`
of the first `N` poles: `0` real, `1` complex primary, `2` complex conjugate.
A pole with nonzero imaginary part that does not open a pair already closed
by its predecessor must be immediately followed by its exact conjugate,
otherwise the scan throws `std::invalid_argument` (modelled as
`invalidPoleConfig`). -/
def classifyFrom (p : List (Cx K)) (N : Nat) (m : Nat) : Except VFErr (List Nat) :=
  classifyFuel p N (N - m) m

/-- Fuel-indexed twin of `badPair`; see `classifyFuel`. -/
def badPairFuel (p : List (Cx K)) (N : Nat) : Nat → Nat → Bool
  | 0, _ => false
  | fuel + 1, m =>
    if N ≤ m then false
    else
      if (p.getD m 0).im = 0 then badPairFuel p N fuel (m + 1)
      else
        if N ≤ m + 1 ∨ Cx.conj (p.getD m 0) ≠ p.getD (m + 1) 0 then true
        else badPairFuel p N fuel (m + 2)

/-- Decision procedure for a broken conjugate-pairing invariant, mirroring
the branch structure of `classifyFrom`: `true` exactly when the scan of
vectfit.cpp lines 119-136 would throw. -/
def badPair (p : List (Cx K)) (N : Nat) (m : Nat) : Bool :=
  badPairFuel p N (N - m) m

/-- Division with IEEE finiteness tracking: `none` models the non-finite
double produced by dividing by an exactly zero complex denominator; any other
quotient is finite. -/
def odiv (a z : Cx K) : Option (Cx K) := if z = 0 then none else some (Cx.div a z)

/-- Raw partial-fraction basis entry for one pole, before any sentinel
substitution (vectfit.cpp lines 144-151 and 353-360): tag `0` gives
`1/(s-p)`, tag `1` gives `1/(s-p) + 1/(s-conj p)`, tag `2` gives
`i/(s-conj p) - i/(s-p)`.  `none` records that the double computation
produced a non-finite value.  Tags other than 0/1/2 cannot be produced by
`classifyFrom`; that dead `runtime_error` branch is modelled as zero. -/
def baseColRaw (sv : K) (p : Cx K) (t : Nat) : Option (Cx K) :=
  if t = 0 then odiv 1 (⟨sv, 0⟩ - p)
  else if t = 1 then
    match odiv 1 (⟨sv, 0⟩ - p), odiv 1 (⟨sv, 0⟩ - Cx.conj p) with
    | some a, some b => some (a + b)
    | _, _ => none
  else if t = 2 then
    match odiv ⟨0, 1⟩ (⟨sv, 0⟩ - Cx.conj p), odiv ⟨0, 1⟩ (⟨sv, 0⟩ - p) with
    | some a, some b => some (a - b)
    | _, _ => none
  else some 0

/-- Total-valued twin of `baseColRaw` used where the matrix values flow on
into the (oracle-consumed) linear systems. -/
def baseColT (sv : K) (p : Cx K) (t : Nat) : Cx K :=
  if t = 0 then Cx.div 1 (⟨sv, 0⟩ - p)
  else if t = 1 then Cx.div 1 (⟨sv, 0⟩ - p) + Cx.div 1 (⟨sv, 0⟩ - Cx.conj p)
  else if t = 2 then Cx.div ⟨0, 1⟩ (⟨sv, 0⟩ - Cx.conj p) - Cx.div ⟨0, 1⟩ (⟨sv, 0⟩ - p)
  else 0

/-- Entry `(i, m)` of the pole-identification basis matrix `Dk`
(vectfit.cpp lines 139-162): `Ns` rows and `N + max(Nc, 1)` columns.  Pole
columns (`m < N`) are built from the classified poles and then the filter of
line 155 replaces any non-finite entry by `TOLhigh`; column `N` is the
always-present constant column of line 158; columns `N+1 ... N+Nc-1` hold
the monomials `s^(m-N)` of lines 159-162. -/
def DkPoleEntry (s : RArr K) (poles : List (Cx K)) (ci : List Nat)
    (N Nc : Nat) (i m : Nat) : Cx K :=
  if m < N then (baseColRaw (sAt s i) (poles.getD m 0) (ci.getD m 0)).getD ⟨TOLhigh, 0⟩
  else if m = N then 1
  else ⟨(sAt s i) ^ (m - N), 0⟩

/-- The materialized pole-identification basis matrix `Dk`
(vectfit.cpp lines 139-162). -/
def DkPoleMat (s : RArr K) (poles : List (Cx K)) (ci : List Nat)
    (Ns N Nc : Nat) : List (List (Cx K)) :=
  (List.range Ns).map (fun i =>
    (List.range (N + max Nc 1)).map (fun m => DkPoleEntry s poles ci N Nc i m))

/-- Entry `(i, m)` of the rebuilt residue-identification basis matrix `Dk`
(vectfit.cpp lines 349-365): `Ns` rows and exactly `N + Nc` columns, pole
columns first, then monomials `s^0 ... s^(Nc-1)`.  Unlike the
pole-identification build there is no non-finite filter here; the values
flow on unreplaced (see `DkResRawEntry` for the finiteness tracking). -/
def DkResEntry (s : RArr K) (poles : List (Cx K)) (ci : List Nat)
    (N Nc : Nat) (i m : Nat) : Cx K :=
  if m < N then baseColT (sAt s i) (poles.getD m 0) (ci.getD m 0)
  else ⟨(sAt s i) ^ (m - N), 0⟩

/-- Finiteness-tracking twin of `DkResEntry`: `none` marks the entries of
the residue-identification basis where the double arithmetic of vectfit.cpp
lines 349-365 produces a non-finite value (which that code does not
replace). -/
def DkResRawEntry (s : RArr K) (poles : List (Cx K)) (ci : List Nat)
    (N Nc : Nat) (i m : Nat) : Option (Cx K) :=
  if m < N then baseColRaw (sAt s i) (poles.getD m 0) (ci.getD m 0)
  else some ⟨(sAt s i) ^ (m - N), 0⟩

/-- The materialized residue-identification basis matrix
(vectfit.cpp lines 349-365). -/
def DkResMat (s : RArr K) (poles : List (Cx K)) (ci : List Nat)
    (Ns N Nc : Nat) : List (List (Cx K)) :=
  (List.range Ns).map (fun i =>
    (List.range (N + Nc)).map (fun m => DkResEntry s poles ci N Nc i m))

/-- Entry read from a materialized complex matrix. -/
def dkAt (Dk : List (List (Cx K))) (i m : Nat) : Cx K := (Dk.getD i []).getD m 0

/-- The scale value of vectfit.cpp lines 164-171:
`sqrt(sum_m norm(weight_m * f_m)^2) / Ns`. -/
def scaleVal (env : Env K) (f w : RArr K) (Nv Ns : Nat) : K :=
  env.sqrt ((List.range Nv).foldl
    (fun acc m =>
      acc + env.sqrt (sumSq ((List.range Ns).map (fun i => at2 w Ns m i * at2 f Ns m i))) ^ 2)
    0) / (Ns : K)

/-- The per-response complex system `A1` of the relaxed pole-identification
solve (vectfit.cpp lines 178-190): left block of `N + Nc` weighted basis
columns, right block of `N + 1` columns `-w * Dk_col * f`. -/
def A1PoleMat (f w : RArr K) (Dk : List (List (Cx K))) (Ns N Nc n : Nat) :
    List (List (Cx K)) :=
  (List.range Ns).map (fun i =>
    (List.range (N + Nc + N + 1)).map (fun m =>
      if m < N + Nc then Cx.rmul (at2 w Ns n i) (dkAt Dk i m)
      else Cx.rmul (-(at2 w Ns n i) * at2 f Ns n i) (dkAt Dk i (m - (N + Nc)))))

/-- The real stacked system `A` of vectfit.cpp lines 192-204: real parts,
imaginary parts, and (for the last response vector only) the extra integral
criterion row `A(2Ns, N+Nc+m) = real(scale * sum(Dk col m))`. -/
def APoleMat (env : Env K) (f w : RArr K) (Dk : List (List (Cx K)))
    (Nv Ns N Nc n : Nat) : List (List K) :=
  let A1 := A1PoleMat f w Dk Ns N Nc n
  (List.range (2 * Ns + 1)).map (fun r =>
    (List.range (N + Nc + N + 1)).map (fun c =>
      if r < Ns then (dkAt A1 r c).re
      else if r < 2 * Ns then (dkAt A1 (r - Ns) c).im
      else if n = Nv - 1 ∧ N + Nc ≤ c then
        scaleVal env f w Nv Ns * (csum ((List.range Ns).map (fun i => dkAt Dk i (c - (N + Nc))))).re
      else 0))

/-- The accumulated joint system `AA` of vectfit.cpp lines 174-218: for each
response vector, the trailing `(N+1) x (N+1)` block of the upper-triangular
QR factor of its stacked system. -/
def AAPole (env : Env K) (f w : RArr K) (Dk : List (List (Cx K)))
    (Nv Ns N Nc : Nat) : List (List K) :=
  ((List.range Nv).map (fun n =>
    let R := (env.qr (APoleMat env f w Dk Nv Ns N Nc n)).2
    (List.range (N + 1)).map (fun r =>
      (List.range (N + 1)).map (fun c =>
        (R.getD (N + Nc + r) []).getD (N + Nc + c) 0)))).flatten

/-- The accumulated right-hand side `bb` of vectfit.cpp lines 175, 212-217:
zero except for the last response vector's block, which is `Ns * scale`
times the trailing entries of the last row of its orthogonal QR factor. -/
def bbPole (env : Env K) (f w : RArr K) (Dk : List (List (Cx K)))
    (Nv Ns N Nc : Nat) : List K :=
  ((List.range Nv).map (fun n =>
    if n = Nv - 1 then
      let Q := (env.qr (APoleMat env f w Dk Nv Ns N Nc n)).1
      (List.range (N + 1)).map (fun k =>
        (Ns : K) * scaleVal env f w Nv Ns * (Q.getD (Q.length - 1) []).getD (N + Nc + k) 0)
    else List.replicate (N + 1) 0)).flatten

/-- Reciprocal column norms `Escale` (vectfit.cpp lines 220-225, 282-287,
382-387): `Escale(j) = 1 / norm(column j)`. -/
def colNorms (env : Env K) (M : List (List K)) (cols : Nat) : List K :=
  (List.range cols).map (fun j => 1 / env.sqrt (sumSq (M.map (fun r => r.getD j 0))))

/-- Column scaling of a matrix by a vector of factors. -/
def colScale (M : List (List K)) (E : List K) : List (List K) :=
  M.map (fun r => List.zipWith (· * ·) r E)

/-- Column 1 of a least-squares solution array: the source reads
`xt::view(std::get<0>(results), xt::all(), 1)` (vectfit.cpp lines 228, 290,
390), i.e. the second column of the returned solution. -/
def solCol1 (M : List (List K)) : List K := M.map (fun r => r.getD 1 0)

/-- The rescaled solution `x` of the relaxed pole-identification solve
(vectfit.cpp lines 220-229): column-normalize `AA`, least-squares solve
against `bb`, take solution column 1, multiply back by `Escale`. -/
def poleSolveX (env : Env K) (f w s : RArr K) (poles : List (Cx K))
    (ci : List Nat) (Nv Ns N Nc : Nat) : List K :=
  let Dk := DkPoleMat s poles ci Ns N Nc
  let AA := AAPole env f w Dk Nv Ns N Nc
  let bb := bbPole env f w Dk Nv Ns N Nc
  let E := colNorms env AA (N + 1)
  List.zipWith (· * ·) (solCol1 (env.lstsq (colScale AA E) bb)) E

/-- The clamp applied to the degenerate denominator `D` (vectfit.cpp lines
239-250): `1` if exactly zero, otherwise the signed tolerance bound. -/
def clampD (d : K) : K :=
  if d = 0 then 1
  else if |d| < TOLlow then (if 0 < d then TOLlow else -TOLlow)
  else if TOLhigh < |d| then (if 0 < d then TOLhigh else -TOLhigh)
  else d

/-- The per-response stacked real system of the non-relaxed fallback solve
(vectfit.cpp lines 254-266): `2 Ns` rows, `N + Nc + N` columns, no integral
criterion row. -/
def AFbMat (f w : RArr K) (Dk : List (List (Cx K))) (Ns N Nc n : Nat) :
    List (List K) :=
  let A1 := (List.range Ns).map (fun i =>
    (List.range (N + Nc + N)).map (fun m =>
      if m < N + Nc then Cx.rmul (at2 w Ns n i) (dkAt Dk i m)
      else Cx.rmul (-(at2 w Ns n i) * at2 f Ns n i) (dkAt Dk i (m - (N + Nc)))))
  (List.range (2 * Ns)).map (fun r =>
    (List.range (N + Nc + N)).map (fun c =>
      if r < Ns then (dkAt A1 r c).re else (dkAt A1 (r - Ns) c).im))

/-- The fallback right-hand side `b` (vectfit.cpp lines 267-269):
`D * weight_n * f_n` stacked over its (zero) imaginary part. -/
def bFb (dq : K) (f w : RArr K) (Ns n : Nat) : List K :=
  ((List.range Ns).map (fun i => dq * at2 w Ns n i * at2 f Ns n i)) ++ List.replicate Ns 0

/-- The numerator coefficients produced by the non-relaxed fallback re-solve
(vectfit.cpp lines 252-291).  In the source this value is assigned to a
block-local `auto C` (line 290) that shadows the function-level `C` of line
230 and dies at the end of the fallback block, so it never reaches the
pole-update matrix; it is exposed here as its own definition for exactly
that comparison. -/
def fallbackCvec (env : Env K) (f w s : RArr K) (poles : List (Cx K))
    (ci : List Nat) (Nv Ns N Nc : Nat) (dq : K) : List K :=
  let Dk := DkPoleMat s poles ci Ns N Nc
  let AA := ((List.range Nv).map (fun n =>
    let R := (env.qr (AFbMat f w Dk Ns N Nc n)).2
    (List.range N).map (fun r =>
      (List.range N).map (fun c => (R.getD (N + Nc + r) []).getD (N + Nc + c) 0)))).flatten
  let bb := ((List.range Nv).map (fun n =>
    let Q := (env.qr (AFbMat f w Dk Ns N Nc n)).1
    let b := bFb dq f w Ns n
    (List.range N).map (fun j =>
      (List.zipWith (fun qrow bv => qrow.getD (N + Nc + j) 0 * bv) Q b).sum))).flatten
  let E := colNorms env AA N
  List.zipWith (· * ·) (solCol1 (env.lstsq (colScale AA E) bb)) E

/-- The `(row, column)` index pairs written while filling the `N x 1`
selector matrix `SERB` (vectfit.cpp lines 296-314): for every complex
primary `m` the source writes `SERB(m, 1)` and `SERB(m + 1, 1)` — column
index 1 of a matrix declared with a single column. -/
def SERBaccesses (ci : List Nat) (N : Nat) : List (Nat × Nat) :=
  (List.range N).foldl
    (fun acc m => if ci.getD m 0 = 1 then acc ++ [(m, 1), (m + 1, 1)] else acc) []

/-- The flat (row-major, unchecked) contents of the `N x 1` buffer `SERB`
after the fill loop.  `xt::xtensor` `operator()` does no bounds checking, so
the out-of-bounds write `SERB(m, 1)` lands at flat offset `m + 1` and
`SERB(m + 1, 1)` at flat offset `m + 2`; a write one past the end of the
buffer (which the last pair produces) touches memory outside the tensor and
is dropped here (`List.set` out of range is a no-op). -/
def SERBflat (ci : List Nat) (N : Nat) : List K :=
  (List.range N).foldl
    (fun b m => if ci.getD m 0 = 1 then (b.set (m + 1) 2).set (m + 2) 0 else b)
    (List.replicate N 1)

/-- Nested-list write `M(i, j) := v`. -/
def msetM (M : List (List K)) (i j : Nat) (v : K) : List (List K) :=
  M.set i ((M.getD i []).set j v)

/-- The real pole block matrix `LAMBD` (vectfit.cpp lines 295-314): scalar
diagonal entries for real poles, 2x2 rotation blocks `[[x, y], [-y, x]]` for
conjugate pairs. -/
def LAMBDmat (poles : List (Cx K)) (ci : List Nat) (N : Nat) : List (List K) :=
  (List.range N).foldl
    (fun M m =>
      if ci.getD m 0 = 0 then msetM M m m (poles.getD m 0).re
      else if ci.getD m 0 = 1 then
        msetM (msetM (msetM (msetM M m m (poles.getD m 0).re)
          (m + 1) (m + 1) (poles.getD m 0).re)
          (m + 1) m (-(poles.getD m 0).im))
          m (m + 1) (poles.getD m 0).im
      else M)
    (List.replicate N (List.replicate N 0))

/-- The pole-update matrix `ZER = LAMBD - SERB * C / D` (vectfit.cpp lines
316-318), with `SERB * C` the `N x N` outer product of the selector column
(read in bounds from the flat buffer) and the numerator coefficients. -/
def ZERmat (poles : List (Cx K)) (ci : List Nat) (C : List K) (D : K)
    (N : Nat) : List (List K) :=
  let L := LAMBDmat poles ci N
  let B := SERBflat ci N
  (List.range N).map (fun i =>
    (List.range N).map (fun j =>
      (L.getD i []).getD j 0 - B.getD i 0 * C.getD j 0 / D))

/-- The pole-identification stage (vectfit.cpp lines 116-320): classify the
input poles, build and solve the relaxed joint system, clamp the denominator
and (in the source) run the fallback re-solve when it is degenerate, then
return the eigenvalues of the pole-update matrix.  The fallback re-solve of
lines 252-291 computes `fallbackCvec` into a block-local variable that
shadows the outer `C` (line 290), so only the clamped `D` — never the
re-solved coefficients — affects `ZER`; the model mirrors that dataflow. -/
def poleStage (env : Env K) (f w s : RArr K) (poles : List (Cx K))
    (Nv Ns N Nc : Nat) : Except VFErr (List (Cx K)) :=
  match classifyFrom poles N 0 with
  | .error e => .error e
  | .ok ci =>
    let x := poleSolveX env f w s poles ci Nv Ns N Nc
    let C := x.dropLast
    let D := x.getLastD 0
    if |D| < TOLlow ∨ TOLhigh < |D| then
      .ok (env.eigvals (ZERmat poles ci C (clampD D) N))
    else
      .ok (env.eigvals (ZERmat poles ci C D N))

/-- The rescaled per-response solution of the residue-identification solve
(vectfit.cpp lines 368-391): stack real and imaginary parts of the weighted
basis, column-normalize, least-squares solve against the weighted target
row, take solution column 1, multiply back by `Escale`. -/
def resSolveX (env : Env K) (f w : RArr K) (Dk : List (List (Cx K)))
    (Ns N Nc n : Nat) : List K :=
  let A := (List.range (2 * Ns)).map (fun r =>
    (List.range (N + Nc)).map (fun c =>
      if r < Ns then (Cx.rmul (at2 w Ns n r) (dkAt Dk r c)).re
      else (Cx.rmul (at2 w Ns n (r - Ns)) (dkAt Dk (r - Ns) c)).im))
  let b := ((List.range Ns).map (fun i => at2 w Ns n i * at2 f Ns n i)) ++ List.replicate Ns 0
  let E := colNorms env A (N + Nc)
  List.zipWith (· * ·) (solCol1 (env.lstsq (colScale A E) b)) E

/-- One iteration `m` of the residue recombination loop (vectfit.cpp lines
401-421), acting on one response row: a real pole stores its coefficient
directly, a complex primary stores `r1 + i r2` at `m` and `r1 - i r2` at
`m + 1`, a conjugate position is written by its primary's iteration. -/
def recombStep (cr : List K) (ci : List Nat) (acc : List (Cx K)) (m : Nat) :
    List (Cx K) :=
  if ci.getD m 0 = 0 then acc.set m ⟨cr.getD m 0, 0⟩
  else if ci.getD m 0 = 1 then
    (acc.set m ⟨cr.getD m 0, cr.getD (m + 1) 0⟩).set (m + 1) ⟨cr.getD m 0, -(cr.getD (m + 1) 0)⟩
  else acc

/-- Residue recombination for one response row (vectfit.cpp lines 401-421;
the source iterates poles outer and responses inner, but each response row's
entries are written independently, so the rows are modelled one at a
time). -/
def recombineRow (cr : List K) (ci : List Nat) (N : Nat) : List (Cx K) :=
  (List.range N).foldl (recombStep cr ci) (List.replicate N 0)

/-- The residue-identification stage (vectfit.cpp lines 325-441): classify
the (possibly relocated) poles, rebuild the basis, solve the per-response
column-scaled least-squares problems, recombine conjugate-pair coefficients
into complex residues, reconstruct the fitted curve from the plain
`1/(s - pole)` basis plus the polynomial part, and compute the RMS error. -/
def resStage (env : Env K) (f w s : RArr K) (poles : List (Cx K))
    (Nv Ns N Nc : Nat) : Except VFErr (ResOut K) :=
  match classifyFrom poles N 0 with
  | .error e => .error e
  | .ok ci =>
    let Dk := DkResMat s poles ci Ns N Nc
    let xs := fun n => resSolveX env f w Dk Ns N Nc n
    let crRow := fun n => (List.range N).map (fun m => (xs n).getD m 0)
    let polysFlat := ((List.range Nv).map (fun n =>
      (List.range Nc).map (fun k => (xs n).getD (N + k) 0))).flatten
    let residues := ((List.range Nv).map (fun n => recombineRow (crRow n) ci N)).flatten
    let fitFlat := ((List.range Nv).map (fun n =>
      (List.range Ns).map (fun i =>
        (csum ((List.range N).map (fun m =>
          Cx.div 1 (⟨sAt s i, 0⟩ - poles.getD m 0) * residues.getD (n * N + m) 0))).re
        + ((List.range Nc).map (fun m => (sAt s i) ^ m * polysFlat.getD (n * Nc + m) 0)).sum))).flatten
    let rms := env.sqrt (sumSq (List.zipWith (· - ·) fitFlat f.data))
      / env.sqrt ((Nv * Ns : Nat) : K)
    .ok ⟨residues, polysFlat, fitFlat, rms⟩

/-- The body of `vectfit` after argument validation (vectfit.cpp lines
97-443), with `Nv, Ns, N, Nc` already extracted: initialize the all-zero
outputs, take the zero-model early return when `N = 0` and `Nc = 0`, run the
(independently skippable) pole-identification and residue-identification
stages, and package the returned 5-tuple. -/
def vfBody (env : Env K) (f s : RArr K) (poles : CArr K) (weight : RArr K)
    (Nv Ns N Nc : Nat) (skip_pole skip_res : Bool) : Except VFErr (VFOut K) :=
  if N = 0 ∧ Nc = 0 then
    .ok ⟨⟨[Nv, N], List.replicate (Nv * N) 0⟩, ⟨[Nv, Nc], List.replicate (Nv * Nc) 0⟩,
         poles, env.sqrt (sumSq f.data) / env.sqrt ((Nv * Ns : Nat) : K),
         ⟨[Nv, Ns], List.replicate (Nv * Ns) 0⟩⟩
  else
    match (if skip_pole = false ∧ 0 < N then
            Except.map (fun pd => (⟨[List.length pd], pd⟩ : CArr K))
              (poleStage env f weight s poles.data Nv Ns N Nc)
           else .ok poles) with
    | .error e => .error e
    | .ok poles2 =>
      if skip_res then
        .ok ⟨⟨[Nv, N], List.replicate (Nv * N) 0⟩, ⟨[Nv, Nc], List.replicate (Nv * Nc) 0⟩,
             poles2, 0, ⟨[Nv, Ns], List.replicate (Nv * Ns) 0⟩⟩
      else
        match resStage env f weight s poles2.data Nv Ns N Nc with
        | .error e => .error e
        | .ok ro =>
          .ok ⟨⟨[Nv, N], ro.residues⟩, ⟨[Nv, Nc], ro.polys⟩, poles2, ro.rms,
               ⟨[Nv, Ns], ro.fit⟩⟩

/-- The `vectfit` entry point (vectfit.cpp lines 62-444).  Arguments are
validated exactly in source order (lines 69-95); `n_polys` is an `int` cast
to the unsigned `size_t` before the range check, modelled by reduction
modulo `2^64`, which makes the `Nc < 0` half of the source's check vacuous
while negative inputs wrap to huge values and fail the `Nc > 11` half. -/
def vectfit (env : Env K) (f s : RArr K) (poles : CArr K) (weight : RArr K)
    (n_polys : Int) (skip_pole skip_res : Bool) : Except VFErr (VFOut K) :=
  if f.shape.length ≠ 2 then .error .notRank2F
  else if s.shape.length ≠ 1 then .error .notRank1S
  else if f.shape.getD 1 0 ≠ s.size then .error .lenMismatchS
  else if f.shape ≠ weight.shape then .error .shapeMismatchW
  else if (n_polys % (2 : Int) ^ 64).toNat < 0 ∨ 11 < (n_polys % (2 : Int) ^ 64).toNat then
    .error .badNPolys
  else
    vfBody env f s poles weight (f.shape.getD 0 0) (f.shape.getD 1 0)
      poles.size ((n_polys % (2 : Int) ^ 64).toNat) skip_pole skip_res

/-- Trivial oracle environment over the rationals used to instantiate
theorems at concrete inputs. -/
def qEnv : Env ℚ := ⟨fun _ => 0, fun A => (A, A), fun _ _ => [], fun _ => []⟩

/-- Oracle environment distinguishing the relaxed solve (a two-row joint
system) from the fallback re-solve (a one-row system), with an eigenvalue
oracle that reads the matrix entry, used to exhibit the discarded fallback
coefficients. -/
def c1Env : Env ℚ :=
  ⟨fun _ => 1, fun A => (A, A),
   fun A _ => if A.length = 2 then [[0, 0], [0, 0]] else [[9, 5]],
   fun M => [⟨(M.getD 0 []).getD 0 0, 0⟩]⟩

/-- Oracle environment whose least-squares solution column is nonzero, used
to exhibit a nontrivial conjugate residue pair. -/
def c6Env : Env ℚ := ⟨fun _ => 1, fun A => (A, A), fun _ _ => [[0, 3], [0, 4]], fun _ => []⟩

/-- Oracle environment whose eigenvalue oracle relocates the poles to a
non-conjugate configuration, used to exhibit the classification check on
relocated poles. -/
def c5Env : Env ℚ := ⟨fun _ => 0, fun A => (A, A), fun _ _ => [], fun _ => [⟨1, 2⟩, ⟨3, 4⟩]⟩

/-- Oracle environment over the reals with the genuine square root. -/
noncomputable def rEnv : Env ℝ := ⟨Real.sqrt, fun A => (A, A), fun _ _ => [], fun _ => []⟩

theorem Cx.zero_mk : (0 : Cx K) = ⟨0, 0⟩ := rfl

theorem Cx.one_mk : (1 : Cx K) = ⟨1, 0⟩ := rfl

theorem Cx.sub_mk (a b : Cx K) : a - b = ⟨a.re - b.re, a.im - b.im⟩ := rfl

theorem Cx.conj_mk (a : Cx K) : Cx.conj a = ⟨a.re, -a.im⟩ := rfl

theorem getD_rangeMap {α : Type} (g : Nat → α) (n i : Nat) (d : α) :
    ((List.range n).map g).getD i d = if i < n then g i else d := by
  rw [List.getD_eq_getElem?_getD, List.getElem?_map]
  by_cases h : i < n
  · rw [List.getElem?_range h]
    simp [h]
  · have hn : (List.range n)[i]? = none := by
      rw [List.getElem?_eq_none_iff]
      simpa using Nat.le_of_not_lt h
    simp [hn, h]

theorem getD_replicate {α : Type} (a : α) (n i : Nat) (d : α) :
    (List.replicate n a).getD i d = if i < n then a else d := by
  rw [List.getD_eq_getElem?_getD, List.getElem?_replicate]
  by_cases h : i < n <;> simp [h]

theorem getD_set_self {α : Type} (l : List α) (i : Nat) (v d : α) (h : i < l.length) :
    (l.set i v).getD i d = v := by
  rw [List.getD_eq_getElem?_getD, List.getElem?_set]
  simp [h]

theorem getD_set_ne {α : Type} (l : List α) (i j : Nat) (v d : α) (h : i ≠ j) :
    (l.set i v).getD j d = l.getD j d := by
  rw [List.getD_eq_getElem?_getD, List.getElem?_set, if_neg h, ← List.getD_eq_getElem?_getD]

theorem getD_append {α : Type} (l₁ l₂ : List α) (i : Nat) (d : α) :
    (l₁ ++ l₂).getD i d = if i < l₁.length then l₁.getD i d else l₂.getD (i - l₁.length) d := by
  rw [List.getD_eq_getElem?_getD, List.getElem?_append]
  split <;> rw [← List.getD_eq_getElem?_getD]

theorem flatten_getD {α : Type} (W : Nat) :
    ∀ (L : List (List α)) (n k : Nat) (d : α), (∀ r ∈ L, r.length = W) →
      n < L.length → k < W → L.flatten.getD (n * W + k) d = (L.getD n []).getD k d := by
  intro L
  induction L with
  | nil => intro n k d _ hn; simp at hn
  | cons r L ih =>
    intro n k d hw hn hk
    have hr : r.length = W := hw r (by simp)
    cases n with
    | zero =>
      rw [List.flatten_cons, getD_append, if_pos (by omega)]
      simp
    | succ n =>
      have hWle : W ≤ (n + 1) * W := by
        calc W = 1 * W := (one_mul W).symm
        _ ≤ (n + 1) * W := Nat.mul_le_mul_right W (by omega)
      have hsucc : (n + 1) * W = n * W + W := by ring
      rw [List.flatten_cons, getD_append, if_neg (by omega)]
      have harith : (n + 1) * W + k - r.length = n * W + k := by
        rw [hr]; omega
      rw [harith, ih n k d (fun q hq => hw q (by simp [hq])) (by simpa using hn) hk]
      simp

theorem foldl_length_inv {α β : Type} (g : List α → β → List α) (l : List β) (a : List α)
    (h : ∀ acc x, (g acc x).length = acc.length) : (l.foldl g a).length = a.length := by
  induction l generalizing a with
  | nil => rfl
  | cons x l ih => rw [List.foldl_cons, ih (g a x)]; exact h a x

theorem classifyFuel_len (p : List (Cx K)) (N : Nat) :
    ∀ fuel m l, N - m ≤ fuel → classifyFuel p N fuel m = .ok l → l.length = N - m := by
  intro fuel
  induction fuel with
  | zero =>
    intro m l hf hcl
    simp only [classifyFuel] at hcl
    cases hcl
    simp
    omega
  | succ fuel ih =>
    intro m l hf hcl
    simp only [classifyFuel] at hcl
    by_cases hNm : N ≤ m
    · rw [if_pos hNm] at hcl; cases hcl; simp; omega
    rw [if_neg hNm] at hcl
    by_cases him : (p.getD m 0).im = 0
    · rw [if_pos him] at hcl
      cases hrec : classifyFuel p N fuel (m + 1) with
      | error e => rw [hrec] at hcl; cases hcl
      | ok rest =>
        rw [hrec] at hcl
        cases hcl
        have := ih (m + 1) rest (by omega) hrec
        simp [this]
        omega
    · rw [if_neg him] at hcl
      by_cases hpair : N ≤ m + 1 ∨ Cx.conj (p.getD m 0) ≠ p.getD (m + 1) 0
      · rw [if_pos hpair] at hcl; cases hcl
      rw [if_neg hpair] at hcl
      cases hrec : classifyFuel p N fuel (m + 2) with
      | error e => rw [hrec] at hcl; cases hcl
      | ok rest =>
        rw [hrec] at hcl
        cases hcl
        have := ih (m + 2) rest (by omega) hrec
        simp [this]
        omega

theorem classify_len (p : List (Cx K)) (N : Nat) :
    ∀ m l, classifyFrom p N m = .ok l → l.length = N - m :=
  fun m l h => classifyFuel_len p N (N - m) m l le_rfl h

theorem classifyFuel_tag2 (p : List (Cx K)) (N : Nat) :
    ∀ fuel m l, classifyFuel p N fuel m = .ok l →
      ∀ k, l.getD k 0 = 1 → l.getD (k + 1) 0 = 2 := by
  intro fuel
  induction fuel with
  | zero =>
    intro m l hcl k hk
    simp only [classifyFuel] at hcl
    cases hcl
    simp at hk
  | succ fuel ih =>
    intro m l hcl k hk
    simp only [classifyFuel] at hcl
    by_cases hNm : N ≤ m
    · rw [if_pos hNm] at hcl; cases hcl; simp at hk
    rw [if_neg hNm] at hcl
    by_cases him : (p.getD m 0).im = 0
    · rw [if_pos him] at hcl
      cases hrec : classifyFuel p N fuel (m + 1) with
      | error e => rw [hrec] at hcl; cases hcl
      | ok rest =>
        rw [hrec] at hcl
        cases hcl
        cases k with
        | zero => simp [List.getD_cons_zero] at hk
        | succ k =>
          simp only [List.getD_cons_succ] at hk ⊢
          exact ih (m + 1) rest hrec k hk
    · rw [if_neg him] at hcl
      by_cases hpair : N ≤ m + 1 ∨ Cx.conj (p.getD m 0) ≠ p.getD (m + 1) 0
      · rw [if_pos hpair] at hcl; cases hcl
      rw [if_neg hpair] at hcl
      cases hrec : classifyFuel p N fuel (m + 2) with
      | error e => rw [hrec] at hcl; cases hcl
      | ok rest =>
        rw [hrec] at hcl
        cases hcl
        match k, hk with
        | 0, hk => simp [List.getD_cons_zero, List.getD_cons_succ]
        | 1, hk => simp [List.getD_cons_zero, List.getD_cons_succ] at hk
        | (k + 2), hk =>
          simp only [List.getD_cons_succ] at hk ⊢
          exact ih (m + 2) rest hrec k hk

theorem classify_tag2 (p : List (Cx K)) (N : Nat) :
    ∀ m l, classifyFrom p N m = .ok l → ∀ k, l.getD k 0 = 1 → l.getD (k + 1) 0 = 2 :=
  fun m l h => classifyFuel_tag2 p N (N - m) m l h

theorem badPairFuel_err (p : List (Cx K)) (N : Nat) :
    ∀ fuel m, badPairFuel p N fuel m = true →
      classifyFuel p N fuel m = .error .invalidPoleConfig := by
  intro fuel
  induction fuel with
  | zero =>
    intro m hb
    simp only [badPairFuel] at hb
    cases hb
  | succ fuel ih =>
    intro m hb
    simp only [badPairFuel] at hb
    simp only [classifyFuel]
    by_cases hNm : N ≤ m
    · rw [if_pos hNm] at hb; cases hb
    rw [if_neg hNm] at hb
    rw [if_neg hNm]
    by_cases him : (p.getD m 0).im = 0
    · rw [if_pos him] at hb
      rw [if_pos him, ih (m + 1) hb]
    · rw [if_neg him] at hb
      rw [if_neg him]
      by_cases hpair : N ≤ m + 1 ∨ Cx.conj (p.getD m 0) ≠ p.getD (m + 1) 0
      · rw [if_pos hpair]
      · rw [if_neg hpair] at hb
        rw [if_neg hpair, ih (m + 2) hb]

theorem badPair_err (p : List (Cx K)) (N : Nat) :
    ∀ m, badPair p N m = true → classifyFrom p N m = .error .invalidPoleConfig :=
  fun m h => badPairFuel_err p N (N - m) m h

theorem badPair_pos (p : List (Cx K)) (N : Nat) (h : badPair p N 0 = true) : 0 < N := by
  by_contra hN
  have hz : N = 0 := by omega
  subst hz
  simp only [badPair, Nat.sub_zero] at h
  simp only [badPairFuel] at h
  cases h

theorem recombStep_length (cr : List K) (ci : List Nat) (acc : List (Cx K)) (m : Nat) :
    (recombStep cr ci acc m).length = acc.length := by
  unfold recombStep
  split
  · rw [List.length_set]
  split
  · rw [List.length_set, List.length_set]
  · rfl

theorem recombineRow_length (cr : List K) (ci : List Nat) (N : Nat) :
    (recombineRow cr ci N).length = N := by
  unfold recombineRow
  rw [foldl_length_inv _ _ _ (recombStep_length cr ci), List.length_replicate]

theorem recombStep_getD_ne (cr : List K) (ci : List Nat) (acc : List (Cx K)) (x q : Nat)
    (d : Cx K) (h1 : x ≠ q) (h2 : x + 1 ≠ q) :
    (recombStep cr ci acc x).getD q d = acc.getD q d := by
  unfold recombStep
  split
  · exact getD_set_ne _ _ _ _ _ h1
  split
  · rw [getD_set_ne _ _ _ _ _ h2, getD_set_ne _ _ _ _ _ h1]
  · rfl

theorem recombStep_tag2 (cr : List K) (ci : List Nat) (acc : List (Cx K)) (x : Nat)
    (h : ci.getD x 0 = 2) : recombStep cr ci acc x = acc := by
  unfold recombStep
  rw [if_neg (by rw [h]; omega), if_neg (by rw [h]; omega)]

theorem recombStep_tag1 (cr : List K) (ci : List Nat) (acc : List (Cx K)) (x : Nat)
    (h : ci.getD x 0 = 1) :
    recombStep cr ci acc x =
      (acc.set x ⟨cr.getD x 0, cr.getD (x + 1) 0⟩).set (x + 1)
        ⟨cr.getD x 0, -(cr.getD (x + 1) 0)⟩ := by
  unfold recombStep
  rw [if_neg (by rw [h]; omega), if_pos h]

theorem foldl_recomb_frozen (cr : List K) (ci : List Nat) :
    ∀ (L : List Nat) (a : List (Cx K)) (q : Nat) (d : Cx K),
      (∀ x ∈ L, ∀ aa, (recombStep cr ci aa x).getD q d = aa.getD q d) →
      (L.foldl (recombStep cr ci) a).getD q d = a.getD q d := by
  intro L
  induction L with
  | nil => intro a q d _; rfl
  | cons x L ih =>
    intro a q d h
    rw [List.foldl_cons, ih _ _ _ (fun y hy => h y (by simp [hy])), h x (by simp)]

theorem foldl_recomb_length (cr : List K) (ci : List Nat) (L : List Nat) (a : List (Cx K)) :
    (L.foldl (recombStep cr ci) a).length = a.length :=
  foldl_length_inv _ _ _ (recombStep_length cr ci)

theorem range_split (N m : Nat) (h : m < N) :
    List.range N = List.range (m + 1) ++ (List.range (N - (m + 1))).map (fun x => m + 1 + x) := by
  conv_lhs => rw [show N = (m + 1) + (N - (m + 1)) by omega]
  exact List.range_add _ _

theorem recombineRow_getD_primary (cr : List K) (ci : List Nat) (N m : Nat)
    (h1 : ci.getD m 0 = 1) (hm : m + 1 < N) :
    (recombineRow cr ci N).getD m 0 = ⟨cr.getD m 0, cr.getD (m + 1) 0⟩ := by
  unfold recombineRow
  rw [range_split N m (by omega), List.foldl_append]
  rw [foldl_recomb_frozen cr ci _ _ _ _ (by
    intro x hx aa
    rcases List.mem_map.mp hx with ⟨j, _, hj⟩
    exact recombStep_getD_ne cr ci aa x m 0 (by omega) (by omega))]
  rw [List.range_succ, List.foldl_append]
  simp only [List.foldl_cons, List.foldl_nil]
  have hlen : ((List.range m).foldl (recombStep cr ci) (List.replicate N 0)).length = N := by
    rw [foldl_recomb_length, List.length_replicate]
  rw [recombStep_tag1 cr ci _ m h1]
  rw [getD_set_ne _ _ _ _ _ (by omega), getD_set_self]
  rw [hlen]
  omega

theorem recombineRow_getD_conj (cr : List K) (ci : List Nat) (N m : Nat)
    (h1 : ci.getD m 0 = 1) (h2 : ci.getD (m + 1) 0 = 2) (hm : m + 1 < N) :
    (recombineRow cr ci N).getD (m + 1) 0 = ⟨cr.getD m 0, -(cr.getD (m + 1) 0)⟩ := by
  unfold recombineRow
  rw [range_split N m (by omega), List.foldl_append]
  rw [foldl_recomb_frozen cr ci _ _ _ _ (by
    intro x hx aa
    rcases List.mem_map.mp hx with ⟨j, _, hj⟩
    by_cases hx0 : x = m + 1
    · rw [hx0, recombStep_tag2 cr ci aa (m + 1) h2]
    · exact recombStep_getD_ne cr ci aa x (m + 1) 0 hx0 (by omega))]
  rw [List.range_succ, List.foldl_append]
  simp only [List.foldl_cons, List.foldl_nil]
  have hlen : ((List.range m).foldl (recombStep cr ci) (List.replicate N 0)).length = N := by
    rw [foldl_recomb_length, List.length_replicate]
  rw [recombStep_tag1 cr ci _ m h1]
  rw [getD_set_self]
  rw [List.length_set, hlen]
  omega

theorem odiv_eq_none (a z : Cx K) : odiv a z = none ↔ z = 0 := by
  unfold odiv
  split <;> simp_all

theorem cx_sub_eq_zero (sv : K) (p : Cx K) :
    ((⟨sv, 0⟩ : Cx K) - p = 0) ↔ (p.im = 0 ∧ sv = p.re) := by
  rw [Cx.sub_mk, Cx.zero_mk, Cx.mk.injEq]
  constructor
  · rintro ⟨ha, hb⟩
    dsimp only at ha hb
    exact ⟨by linarith, by linarith⟩
  · rintro ⟨ha, hb⟩
    dsimp only
    exact ⟨by rw [hb]; ring, by rw [ha]; ring⟩

theorem cx_sub_conj_eq_zero (sv : K) (p : Cx K) :
    ((⟨sv, 0⟩ : Cx K) - Cx.conj p = 0) ↔ (p.im = 0 ∧ sv = p.re) := by
  rw [cx_sub_eq_zero sv (Cx.conj p), Cx.conj_mk]
  dsimp only
  rw [neg_eq_zero]

theorem baseColRaw_none_iff (sv : K) (p : Cx K) (t : Nat) (ht : t = 0 ∨ t = 1 ∨ t = 2) :
    (baseColRaw sv p t = none ↔ (p.im = 0 ∧ sv = p.re)) := by
  rcases ht with h | h | h <;> subst h
  · unfold baseColRaw
    rw [if_pos rfl, odiv_eq_none]
    exact cx_sub_eq_zero sv p
  · unfold baseColRaw
    rw [if_neg (by omega), if_pos rfl]
    by_cases hz1 : ((⟨sv, 0⟩ : Cx K) - p) = 0
    · simp only [odiv, if_pos hz1]
      simpa using (cx_sub_eq_zero sv p).mp hz1
    by_cases hz2 : ((⟨sv, 0⟩ : Cx K) - Cx.conj p) = 0
    · simp only [odiv, if_neg hz1, if_pos hz2]
      simpa using (cx_sub_conj_eq_zero sv p).mp hz2
    · simp only [odiv, if_neg hz1, if_neg hz2]
      constructor
      · intro hc; cases hc
      · intro hc; exact absurd ((cx_sub_eq_zero sv p).mpr hc) hz1
  · unfold baseColRaw
    rw [if_neg (by omega), if_neg (by omega), if_pos rfl]
    by_cases hz2 : ((⟨sv, 0⟩ : Cx K) - Cx.conj p) = 0
    · simp only [odiv, if_pos hz2]
      simpa using (cx_sub_conj_eq_zero sv p).mp hz2
    by_cases hz1 : ((⟨sv, 0⟩ : Cx K) - p) = 0
    · simp only [odiv, if_neg hz2, if_pos hz1]
      simpa using (cx_sub_eq_zero sv p).mp hz1
    · simp only [odiv, if_neg hz2, if_neg hz1]
      constructor
      · intro hc; cases hc
      · intro hc; exact absurd ((cx_sub_eq_zero sv p).mpr hc) hz1

theorem baseColRaw_some (sv : K) (p : Cx K) (t : Nat) (z : Cx K)
    (h : baseColRaw sv p t = some z) : baseColT sv p t = z := by
  unfold baseColRaw at h
  unfold baseColT
  by_cases h0 : t = 0
  · rw [if_pos h0] at h
    rw [if_pos h0]
    unfold odiv at h
    split at h
    · cases h
    · cases h; rfl
  rw [if_neg h0] at h
  rw [if_neg h0]
  by_cases h1 : t = 1
  · rw [if_pos h1] at h
    rw [if_pos h1]
    by_cases hz1 : ((⟨sv, 0⟩ : Cx K) - p) = 0
    · simp [odiv, hz1] at h
    by_cases hz2 : ((⟨sv, 0⟩ : Cx K) - Cx.conj p) = 0
    · simp [odiv, hz1, hz2] at h
    · simp only [odiv, if_neg hz1, if_neg hz2, Option.some.injEq] at h
      exact h
  rw [if_neg h1] at h
  rw [if_neg h1]
  by_cases h2 : t = 2
  · rw [if_pos h2] at h
    rw [if_pos h2]
    by_cases hz2 : ((⟨sv, 0⟩ : Cx K) - Cx.conj p) = 0
    · simp [odiv, hz2] at h
    by_cases hz1 : ((⟨sv, 0⟩ : Cx K) - p) = 0
    · simp [odiv, hz1, hz2] at h
    · simp only [odiv, if_neg hz1, if_neg hz2, Option.some.injEq] at h
      exact h
  · rw [if_neg h2] at h
    rw [if_neg h2]
    cases h
    rfl

theorem vfBody_zero (env : Env K) (f s : RArr K) (poles : CArr K) (weight : RArr K)
    (Nv Ns : Nat) (sp sr : Bool) :
    vfBody env f s poles weight Nv Ns 0 0 sp sr =
      .ok ⟨⟨[Nv, 0], []⟩, ⟨[Nv, 0], []⟩, poles,
           env.sqrt (sumSq f.data) / env.sqrt ((Nv * Ns : Nat) : K),
           ⟨[Nv, Ns], List.replicate (Nv * Ns) 0⟩⟩ := by
  unfold vfBody
  rw [if_pos ⟨rfl, rfl⟩]
  simp

theorem vectfit_valid (env : Env K) (f s : RArr K) (poles : CArr K) (weight : RArr K)
    (np : Int) (sp sr : Bool) (Nv Ns : Nat)
    (hf : f.shape = [Nv, Ns]) (hs : s.shape = [Ns]) (hw : weight.shape = f.shape)
    (h0 : 0 ≤ np) (h1 : np ≤ 11) :
    vectfit env f s poles weight np sp sr =
      vfBody env f s poles weight Nv Ns poles.size np.toNat sp sr := by
  have hmod : np % (2 : Int) ^ 64 = np :=
    Int.emod_eq_of_lt h0 (lt_of_le_of_lt h1 (by norm_num))
  unfold vectfit
  rw [hmod]
  rw [if_neg (by rw [hf]; simp), if_neg (by rw [hs]; simp),
      if_neg (by rw [hf]; simp [RArr.size, hs]), if_neg (by simp [hw]),
      if_neg (by omega)]
  rw [hf]
  simp

/-- C4: for every input with an empty pole set (N = 0) and n_polys = 0, regardless
of the skip flags, the call returns empty residues and polynomial coefficients,
the (empty) input poles, a fitted curve identically zero of shape Nv x Ns, and
RMS error equal to the Frobenius norm of f divided by the square root of Nv * Ns;
the conclusion mentions no oracle of `env` besides `sqrt`, so no least-squares,
QR, or eigenvalue routine is attempted. -/
theorem C4_zero_model (env : Env K) (f s : RArr K) (poles : CArr K) (weight : RArr K)
    (sp sr : Bool) (Nv Ns : Nat)
    (hf : f.shape = [Nv, Ns]) (hs : s.shape = [Ns]) (hw : weight.shape = f.shape)
    (hN : poles.size = 0) :
    vectfit env f s poles weight 0 sp sr =
      .ok ⟨⟨[Nv, 0], []⟩, ⟨[Nv, 0], []⟩, poles,
           env.sqrt (sumSq f.data) / env.sqrt ((Nv * Ns : Nat) : K),
           ⟨[Nv, Ns], List.replicate (Nv * Ns) 0⟩⟩ := by
  rw [vectfit_valid env f s poles weight 0 sp sr Nv Ns hf hs hw le_rfl (by norm_num), hN]
  exact vfBody_zero env f s poles weight Nv Ns sp sr

/-- Witness for C4 at the claim's concrete input: Nv = 1, Ns = 3, f = [1,2,3],
weight = [1,1,1], one empty pole set, giving RMS = sqrt 14 / sqrt 3. -/
theorem C4_zero_model_witness :
    vectfit rEnv ⟨[1, 3], [1, 2, 3]⟩ ⟨[3], [1, 2, 3]⟩ (⟨[0], []⟩ : CArr ℝ)
        ⟨[1, 3], [1, 1, 1]⟩ 0 false true =
      .ok ⟨⟨[1, 0], []⟩, ⟨[1, 0], []⟩, ⟨[0], []⟩, Real.sqrt 14 / Real.sqrt 3,
           ⟨[1, 3], [0, 0, 0]⟩⟩ := by
  have h := C4_zero_model rEnv ⟨[1, 3], [1, 2, 3]⟩ ⟨[3], [1, 2, 3]⟩ ⟨[0], []⟩
    ⟨[1, 3], [1, 1, 1]⟩ false true 1 3 rfl rfl rfl rfl
  rw [h]
  norm_num [sumSq, rEnv, List.replicate]

/-- C8: any rank, shape, or length violation among f, s, weight, and any n_polys
outside [0, 11] — including every negative n_polys despite the cast to an
unsigned size type before the range check — makes the call fail with one of the
validation errors, before any computation (the conclusion holds for every
oracle environment and both skip flags, and no output is produced). -/
theorem C8_validation (env : Env K) (f s : RArr K) (poles : CArr K) (weight : RArr K)
    (np : Int) (sp sr : Bool) (hlo : -(2 : Int) ^ 31 ≤ np) (hhi : np < 2 ^ 31)
    (hbad : f.shape.length ≠ 2 ∨ s.shape.length ≠ 1 ∨ f.shape.getD 1 0 ≠ s.size ∨
      f.shape ≠ weight.shape ∨ np < 0 ∨ 11 < np) :
    ∃ e, vectfit env f s poles weight np sp sr = .error e := by
  unfold vectfit
  by_cases c1 : f.shape.length ≠ 2
  · exact ⟨_, by rw [if_pos c1]⟩
  rw [if_neg c1]
  by_cases c2 : s.shape.length ≠ 1
  · exact ⟨_, by rw [if_pos c2]⟩
  rw [if_neg c2]
  by_cases c3 : f.shape.getD 1 0 ≠ s.size
  · exact ⟨_, by rw [if_pos c3]⟩
  rw [if_neg c3]
  by_cases c4 : f.shape ≠ weight.shape
  · exact ⟨_, by rw [if_pos c4]⟩
  rw [if_neg c4]
  have c5 : np < 0 ∨ 11 < np := by tauto
  have h264 : (2 : Int) ^ 64 = 18446744073709551616 := by norm_num
  have h231 : (2 : Int) ^ 31 = 2147483648 := by norm_num
  have hc : ((np % (2 : Int) ^ 64).toNat < 0 ∨ 11 < (np % (2 : Int) ^ 64).toNat) := by
    rw [h264]
    rw [h231] at hhi
    rw [show -(2 : Int) ^ 31 = -2147483648 by norm_num] at hlo
    rcases c5 with h | h
    · right; omega
    · right; omega
  exact ⟨_, by rw [if_pos hc]⟩

/-- Witness for C8: n_polys = -1 with otherwise valid shapes fails. -/
theorem C8_validation_witness :
    ∃ e, vectfit qEnv ⟨[1, 2], [1, 1]⟩ ⟨[2], [1, 2]⟩ (⟨[1], [⟨-1, 0⟩]⟩ : CArr ℚ)
      ⟨[1, 2], [1, 1]⟩ (-1) false false = .error e :=
  C8_validation qEnv ⟨[1, 2], [1, 1]⟩ ⟨[2], [1, 2]⟩ ⟨[1], [⟨-1, 0⟩]⟩ ⟨[1, 2], [1, 1]⟩
    (-1) false false (by norm_num) (by norm_num)
    (Or.inr (Or.inr (Or.inr (Or.inr (Or.inl (by norm_num))))))

/-- C10: if skip_pole and skip_res are both true and validation passes (with not
both N = 0 and n_polys = 0), the call succeeds without any error — in particular
no conjugate-pairing validation runs, even on poles whose complex entries are
not adjacent conjugate pairs — returning all-zero residues, polynomial
coefficients and fitted curve, RMS error 0, and the input poles unchanged. -/
theorem C10_both_skips (env : Env K) (f s : RArr K) (poles : CArr K) (weight : RArr K)
    (np : Int) (Nv Ns : Nat)
    (hf : f.shape = [Nv, Ns]) (hs : s.shape = [Ns]) (hw : weight.shape = f.shape)
    (h0 : 0 ≤ np) (h1 : np ≤ 11) (hNN : ¬(poles.size = 0 ∧ np.toNat = 0)) :
    vectfit env f s poles weight np true true =
      .ok ⟨⟨[Nv, poles.size], List.replicate (Nv * poles.size) 0⟩,
           ⟨[Nv, np.toNat], List.replicate (Nv * np.toNat) 0⟩, poles, 0,
           ⟨[Nv, Ns], List.replicate (Nv * Ns) 0⟩⟩ := by
  rw [vectfit_valid env f s poles weight np true true Nv Ns hf hs hw h0 h1]
  unfold vfBody
  rw [if_neg hNN]
  simp

/-- Witness for C10: a non-conjugate complex pole pair [1+2i, 3+4i] passes
untouched when both stages are skipped. -/
theorem C10_both_skips_witness :
    vectfit qEnv ⟨[1, 2], [1, 1]⟩ ⟨[2], [1, 2]⟩ (⟨[2], [⟨1, 2⟩, ⟨3, 4⟩]⟩ : CArr ℚ)
        ⟨[1, 2], [1, 1]⟩ 0 true true =
      .ok ⟨⟨[1, 2], [0, 0]⟩, ⟨[1, 0], []⟩, ⟨[2], [⟨1, 2⟩, ⟨3, 4⟩]⟩, 0,
           ⟨[1, 2], [0, 0]⟩⟩ := by
  have h := C10_both_skips qEnv ⟨[1, 2], [1, 1]⟩ ⟨[2], [1, 2]⟩ ⟨[2], [⟨1, 2⟩, ⟨3, 4⟩]⟩
    ⟨[1, 2], [1, 1]⟩ 0 1 2 rfl rfl rfl le_rfl (by norm_num) (by decide)
  rw [h]
  decide

/-- C9 counterexample: with an empty pole set and n_polys = 0 the zero-model
early return (vectfit.cpp lines 104-108) fires before the skip flags are
consulted, so a call with skip_res = true reports RMS = norm(f)/sqrt(Nv*Ns),
which is nonzero for nonzero f — contradicting the claim that skip_res = true
always returns RMS error equal to 0. -/
theorem C9_skip_res_rms_cex :
    vectfit rEnv ⟨[1, 3], [3, 2, 1]⟩ ⟨[3], [4, 5, 6]⟩ (⟨[0], []⟩ : CArr ℝ)
        ⟨[1, 3], [1, 1, 1]⟩ 0 false true =
      .ok ⟨⟨[1, 0], []⟩, ⟨[1, 0], []⟩, ⟨[0], []⟩, Real.sqrt 14 / Real.sqrt 3,
           ⟨[1, 3], [0, 0, 0]⟩⟩ ∧
    Real.sqrt 14 / Real.sqrt 3 ≠ 0 := by
  constructor
  · rw [vectfit_valid rEnv ⟨[1, 3], [3, 2, 1]⟩ ⟨[3], [4, 5, 6]⟩ ⟨[0], []⟩
      ⟨[1, 3], [1, 1, 1]⟩ 0 false true 1 3 rfl rfl rfl le_rfl (by norm_num)]
    rw [show (CArr.size (⟨[0], []⟩ : CArr ℝ)) = 0 from rfl,
        show Int.toNat 0 = 0 from rfl]
    rw [vfBody_zero rEnv ⟨[1, 3], [3, 2, 1]⟩ ⟨[3], [4, 5, 6]⟩ ⟨[0], []⟩
      ⟨[1, 3], [1, 1, 1]⟩ 1 3 false true]
    norm_num [sumSq, rEnv, List.replicate]
  · have h14 : 0 < Real.sqrt 14 := Real.sqrt_pos.mpr (by norm_num)
    have h3 : 0 < Real.sqrt 3 := Real.sqrt_pos.mpr (by norm_num)
    exact div_ne_zero (ne_of_gt h14) (ne_of_gt h3)

/-- C9 (amended): provided not both N = 0 and n_polys = 0 (in that degenerate
case the zero-model early return reports RMS = norm(f)/sqrt(Nv*Ns) instead of
0), invoking with skip_res = true returns all-zero residues, polynomial
coefficients and fitted curve with RMS error 0, and its returned pole sequence
is identical to that of a full call (skip_res = false) on identical inputs;
invoking with skip_pole = true returns a pole array equal element-for-element
to (indeed, identical to) the poles supplied on input. -/
theorem C9_skip_consistency (env : Env K) (f s : RArr K) (poles : CArr K) (weight : RArr K)
    (np : Int) (sp : Bool) (Nv Ns : Nat)
    (hf : f.shape = [Nv, Ns]) (hs : s.shape = [Ns]) (hw : weight.shape = f.shape)
    (h0 : 0 ≤ np) (h1 : np ≤ 11) (hNN : ¬(poles.size = 0 ∧ np.toNat = 0)) :
    (∀ r : VFOut K, vectfit env f s poles weight np sp true = .ok r →
      r.residues = ⟨[Nv, poles.size], List.replicate (Nv * poles.size) 0⟩ ∧
      r.polys = ⟨[Nv, np.toNat], List.replicate (Nv * np.toNat) 0⟩ ∧
      r.rmserr = 0 ∧ r.fit = ⟨[Nv, Ns], List.replicate (Nv * Ns) 0⟩) ∧
    (∀ r r2 : VFOut K, vectfit env f s poles weight np sp true = .ok r →
      vectfit env f s poles weight np sp false = .ok r2 → r.poles = r2.poles) ∧
    (∀ (sr : Bool) (r : VFOut K), vectfit env f s poles weight np true sr = .ok r →
      r.poles = poles) := by
  refine ⟨?_, ?_, ?_⟩
  · intro r hr
    rw [vectfit_valid env f s poles weight np sp true Nv Ns hf hs hw h0 h1] at hr
    unfold vfBody at hr
    rw [if_neg hNN] at hr
    cases hps : (if sp = false ∧ 0 < poles.size then
        Except.map (fun pd => (⟨[List.length pd], pd⟩ : CArr K))
          (poleStage env f weight s poles.data Nv Ns poles.size np.toNat)
      else .ok poles) with
    | error e => rw [hps] at hr; cases hr
    | ok poles2 =>
      rw [hps] at hr
      cases hr
      exact ⟨rfl, rfl, rfl, rfl⟩
  · intro r r2 hr hr2
    rw [vectfit_valid env f s poles weight np sp true Nv Ns hf hs hw h0 h1] at hr
    rw [vectfit_valid env f s poles weight np sp false Nv Ns hf hs hw h0 h1] at hr2
    unfold vfBody at hr hr2
    rw [if_neg hNN] at hr hr2
    cases hps : (if sp = false ∧ 0 < poles.size then
        Except.map (fun pd => (⟨[List.length pd], pd⟩ : CArr K))
          (poleStage env f weight s poles.data Nv Ns poles.size np.toNat)
      else .ok poles) with
    | error e => rw [hps] at hr; cases hr
    | ok poles2 =>
      rw [hps] at hr hr2
      cases hr
      dsimp only at hr2
      cases hres : resStage env f weight s poles2.data Nv Ns poles.size np.toNat with
      | error e => rw [hres] at hr2; cases hr2
      | ok ro => rw [hres] at hr2; cases hr2; rfl
  · intro sr r hr
    rw [vectfit_valid env f s poles weight np true sr Nv Ns hf hs hw h0 h1] at hr
    unfold vfBody at hr
    rw [if_neg hNN] at hr
    rw [if_neg (by simp)] at hr
    cases sr with
    | true => cases hr; rfl
    | false =>
      dsimp only at hr
      cases hres : resStage env f weight s poles.data Nv Ns poles.size np.toNat with
      | error e => rw [hres] at hr; cases hr
      | ok ro => rw [hres] at hr; cases hr; rfl

/-- Witness for C9 (amended) at a concrete input with one real pole: the
skip_res call returns RMS 0 and the same poles as the full call, and a
skip_pole call returns the input poles. -/
theorem C9_skip_consistency_witness :
    ((⟨⟨[1, 1], [0]⟩, ⟨[1, 0], []⟩, ⟨[0], []⟩, 0, ⟨[1, 2], [0, 0]⟩⟩ :
        VFOut ℚ).rmserr = 0) ∧
    ((⟨⟨[1, 1], [0]⟩, ⟨[1, 0], []⟩, ⟨[0], []⟩, 0, ⟨[1, 2], [0, 0]⟩⟩ :
        VFOut ℚ).poles =
      (⟨⟨[1, 1], [0]⟩, ⟨[1, 0], []⟩, ⟨[0], []⟩, 0, ⟨[1, 2], [0, 0]⟩⟩ :
        VFOut ℚ).poles) := by
  constructor
  · exact ((C9_skip_consistency qEnv ⟨[1, 2], [1, 1]⟩ ⟨[2], [1, 2]⟩ ⟨[1], [⟨-1, 0⟩]⟩
      ⟨[1, 2], [1, 1]⟩ 0 false 1 2 rfl rfl rfl le_rfl (by norm_num) (by decide)).1
      ⟨⟨[1, 1], [0]⟩, ⟨[1, 0], []⟩, ⟨[0], []⟩, 0, ⟨[1, 2], [0, 0]⟩⟩
      (by with_unfolding_all decide)).2.2.1
  · exact (C9_skip_consistency qEnv ⟨[1, 2], [1, 1]⟩ ⟨[2], [1, 2]⟩ ⟨[1], [⟨-1, 0⟩]⟩
      ⟨[1, 2], [1, 1]⟩ 0 false 1 2 rfl rfl rfl le_rfl (by norm_num) (by decide)).2.1
      ⟨⟨[1, 1], [0]⟩, ⟨[1, 0], []⟩, ⟨[0], []⟩, 0, ⟨[1, 2], [0, 0]⟩⟩
      ⟨⟨[1, 1], [0]⟩, ⟨[1, 0], []⟩, ⟨[0], []⟩, 0, ⟨[1, 2], [0, 0]⟩⟩
      (by with_unfolding_all decide) (by with_unfolding_all decide)

/-- C5: whenever a classification pass runs — pole identification with N > 0, or
residue identification — a pole sequence whose scan meets a pole with nonzero
imaginary part that does not close the preceding pair and is not immediately
followed by its exact complex conjugate (`badPair`, covering a complex pole in
the last position and a non-conjugate adjacent pair such as [1+2i, 3+4i]) makes
the call fail with the invalid-argument error `invalidPoleConfig`, producing no
output; this applies to the input poles (with or without skip_res) and to the
relocated poles before residue identification. -/
theorem C5_conjugate_pairing (env : Env K) (f s : RArr K) (poles : CArr K) (weight : RArr K)
    (np : Int) (Nv Ns : Nat)
    (hf : f.shape = [Nv, Ns]) (hs : s.shape = [Ns]) (hw : weight.shape = f.shape)
    (h0 : 0 ≤ np) (h1 : np ≤ 11) :
    (∀ (p : List (Cx K)) (N2 m : Nat), badPair p N2 m = true →
      classifyFrom p N2 m = .error .invalidPoleConfig) ∧
    (∀ sr : Bool, badPair poles.data poles.size 0 = true →
      vectfit env f s poles weight np false sr = .error .invalidPoleConfig) ∧
    (badPair poles.data poles.size 0 = true →
      vectfit env f s poles weight np true false = .error .invalidPoleConfig) ∧
    (∀ P : List (Cx K), poleStage env f weight s poles.data Nv Ns poles.size np.toNat = .ok P →
      badPair P poles.size 0 = true →
      vectfit env f s poles weight np false false = .error .invalidPoleConfig) := by
  refine ⟨fun p N2 m hb => badPair_err p N2 m hb, ?_, ?_, ?_⟩
  · intro sr hb
    have hN : 0 < poles.size := badPair_pos poles.data poles.size hb
    have hcl := badPair_err poles.data poles.size 0 hb
    have hps : poleStage env f weight s poles.data Nv Ns poles.size np.toNat =
        .error .invalidPoleConfig := by
      unfold poleStage
      rw [hcl]
    rw [vectfit_valid env f s poles weight np false sr Nv Ns hf hs hw h0 h1]
    unfold vfBody
    rw [if_neg (by rintro ⟨hz, -⟩; omega)]
    rw [if_pos ⟨rfl, hN⟩, hps]
    rfl
  · intro hb
    have hN : 0 < poles.size := badPair_pos poles.data poles.size hb
    have hcl := badPair_err poles.data poles.size 0 hb
    have hrs : resStage env f weight s poles.data Nv Ns poles.size np.toNat =
        .error .invalidPoleConfig := by
      unfold resStage
      rw [hcl]
    rw [vectfit_valid env f s poles weight np true false Nv Ns hf hs hw h0 h1]
    unfold vfBody
    rw [if_neg (by rintro ⟨hz, -⟩; omega)]
    rw [if_neg (by simp)]
    dsimp only
    rw [hrs]
    rfl
  · intro P hP hb
    have hN : 0 < poles.size := badPair_pos P poles.size hb
    have hcl := badPair_err P poles.size 0 hb
    have hrs : resStage env f weight s P Nv Ns poles.size np.toNat =
        .error .invalidPoleConfig := by
      unfold resStage
      rw [hcl]
    rw [vectfit_valid env f s poles weight np false false Nv Ns hf hs hw h0 h1]
    unfold vfBody
    rw [if_neg (by rintro ⟨hz, -⟩; omega)]
    rw [if_pos ⟨rfl, hN⟩, hP]
    dsimp only [Except.map]
    rw [hrs]
    rfl

/-- Witness for C5: the non-conjugate adjacent pair [1+2i, 3+4i] fails, a complex
pole in the last position fails, and an eigenvalue oracle relocating a valid
pair to a non-conjugate configuration makes the residue pass fail. -/
theorem C5_conjugate_pairing_witness :
    (vectfit qEnv ⟨[1, 2], [1, 1]⟩ ⟨[2], [1, 2]⟩ (⟨[2], [⟨1, 2⟩, ⟨3, 4⟩]⟩ : CArr ℚ)
      ⟨[1, 2], [1, 1]⟩ 0 false false = .error .invalidPoleConfig) ∧
    (vectfit qEnv ⟨[1, 2], [1, 1]⟩ ⟨[2], [1, 2]⟩ (⟨[2], [⟨5, 0⟩, ⟨1, 2⟩]⟩ : CArr ℚ)
      ⟨[1, 2], [1, 1]⟩ 0 false true = .error .invalidPoleConfig) ∧
    (vectfit c5Env ⟨[1, 2], [1, 1]⟩ ⟨[2], [1, 2]⟩ (⟨[2], [⟨1, 1⟩, ⟨1, -1⟩]⟩ : CArr ℚ)
      ⟨[1, 2], [1, 1]⟩ 0 false false = .error .invalidPoleConfig) := by
  refine ⟨?_, ?_, ?_⟩
  · exact (C5_conjugate_pairing qEnv ⟨[1, 2], [1, 1]⟩ ⟨[2], [1, 2]⟩ ⟨[2], [⟨1, 2⟩, ⟨3, 4⟩]⟩
      ⟨[1, 2], [1, 1]⟩ 0 1 2 rfl rfl rfl le_rfl (by norm_num)).2.1 false
      (by with_unfolding_all decide)
  · exact (C5_conjugate_pairing qEnv ⟨[1, 2], [1, 1]⟩ ⟨[2], [1, 2]⟩ ⟨[2], [⟨5, 0⟩, ⟨1, 2⟩]⟩
      ⟨[1, 2], [1, 1]⟩ 0 1 2 rfl rfl rfl le_rfl (by norm_num)).2.1 true
      (by with_unfolding_all decide)
  · exact (C5_conjugate_pairing c5Env ⟨[1, 2], [1, 1]⟩ ⟨[2], [1, 2]⟩ ⟨[2], [⟨1, 1⟩, ⟨1, -1⟩]⟩
      ⟨[1, 2], [1, 1]⟩ 0 1 2 rfl rfl rfl le_rfl (by norm_num)).2.2.2 [⟨1, 2⟩, ⟨3, 4⟩]
      (by with_unfolding_all decide) (by with_unfolding_all decide)

theorem resStage_conj (env : Env K) (f w s : RArr K) (poles : List (Cx K))
    (Nv Ns N Nc : Nat) (ci : List Nat) (ro : ResOut K) (n m : Nat)
    (hcl : classifyFrom poles N 0 = .ok ci) (htag : ci.getD m 0 = 1)
    (hm : m + 1 < N) (hn : n < Nv)
    (hres : resStage env f w s poles Nv Ns N Nc = .ok ro) :
    ro.residues.getD (n * N + (m + 1)) 0 = Cx.conj (ro.residues.getD (n * N + m) 0) := by
  unfold resStage at hres
  rw [hcl] at hres
  dsimp only at hres
  cases hres
  dsimp only
  have hrows : ∀ r ∈ (List.range Nv).map (fun n2 =>
      recombineRow ((List.range N).map (fun m2 =>
        (resSolveX env f w (DkResMat s poles ci Ns N Nc) Ns N Nc n2).getD m2 0)) ci N),
      r.length = N := by
    intro r hr
    rcases List.mem_map.mp hr with ⟨j, _, hj⟩
    rw [← hj, recombineRow_length]
  rw [flatten_getD N _ n (m + 1) 0 hrows (by simpa using hn) (by omega),
      flatten_getD N _ n m 0 hrows (by simpa using hn) (by omega)]
  rw [getD_rangeMap, if_pos hn]
  have h2 := classify_tag2 poles N 0 ci hcl m htag
  rw [recombineRow_getD_conj _ _ _ _ htag h2 hm,
      recombineRow_getD_primary _ _ _ _ htag hm]
  rfl

/-- C6: for every response-vector index n and every pole index m classified as
a complex primary, the residues produced by residue identification satisfy
residues(n, m+1) = conj(residues(n, m)) exactly — the two solved real
coefficients (r1, r2) are combined as r1 + i r2 for the primary and r1 - i r2
for the conjugate; stated for the residue stage itself (whose output the call
returns verbatim) and for the full call with skip_pole = true. -/
theorem C6_residue_conjugacy :
    (∀ {K : Type} [inst : LinearOrderedField K] [inst2 : DecidableEq K]
       (env : Env K) (f w s : RArr K) (poles : List (Cx K)) (Nv Ns N Nc : Nat)
       (ci : List Nat) (ro : ResOut K) (n m : Nat),
       classifyFrom poles N 0 = .ok ci → ci.getD m 0 = 1 → m + 1 < N → n < Nv →
       resStage env f w s poles Nv Ns N Nc = .ok ro →
       ro.residues.getD (n * N + (m + 1)) 0 = Cx.conj (ro.residues.getD (n * N + m) 0)) ∧
    (∀ {K : Type} [inst : LinearOrderedField K] [inst2 : DecidableEq K]
       (env : Env K) (f s : RArr K) (poles : CArr K) (weight : RArr K) (np : Int)
       (r : VFOut K) (ci : List Nat) (n m : Nat) (Nv Ns : Nat),
       f.shape = [Nv, Ns] → s.shape = [Ns] → weight.shape = f.shape →
       0 ≤ np → np ≤ 11 →
       vectfit env f s poles weight np true false = .ok r →
       classifyFrom poles.data poles.size 0 = .ok ci → ci.getD m 0 = 1 →
       m + 1 < poles.size → n < Nv →
       r.residues.data.getD (n * poles.size + (m + 1)) 0 =
         Cx.conj (r.residues.data.getD (n * poles.size + m) 0)) := by
  constructor
  · intro K _ _ env f w s poles Nv Ns N Nc ci ro n m hcl htag hm hn hres
    exact resStage_conj env f w s poles Nv Ns N Nc ci ro n m hcl htag hm hn hres
  · intro K _ _ env f s poles weight np r ci n m Nv Ns hf hs hw h0 h1 hcall hcl htag hm hn
    rw [vectfit_valid env f s poles weight np true false Nv Ns hf hs hw h0 h1] at hcall
    unfold vfBody at hcall
    rw [if_neg (by rintro ⟨hz, -⟩; omega)] at hcall
    rw [if_neg (by simp)] at hcall
    dsimp only at hcall
    cases hres : resStage env f weight s poles.data Nv Ns poles.size np.toNat with
    | error e => rw [hres] at hcall; cases hcall
    | ok ro =>
      rw [hres] at hcall
      cases hcall
      exact resStage_conj env f weight s poles.data Nv Ns poles.size np.toNat ci ro n m
        hcl htag hm hn hres

/-- Witness for C6 at a concrete conjugate pair with a nonzero least-squares
solution column: the solved coefficients (3, 4) recombine to the exact
conjugate pair 3 + 4i, 3 - 4i. -/
theorem C6_residue_conjugacy_witness :
    (⟨[⟨3, 4⟩, ⟨3, -4⟩], [], [-8, -1], 1⟩ : ResOut ℚ).residues.getD (0 * 2 + (0 + 1)) 0 =
      Cx.conj ((⟨[⟨3, 4⟩, ⟨3, -4⟩], [], [-8, -1], 1⟩ : ResOut ℚ).residues.getD (0 * 2 + 0) 0) :=
  C6_residue_conjugacy.1 c6Env ⟨[1, 2], [1, 1]⟩ ⟨[1, 2], [1, 1]⟩ ⟨[2], [1, 2]⟩
    [⟨1, 1⟩, ⟨1, -1⟩] 1 2 2 0 [1, 2] ⟨[⟨3, 4⟩, ⟨3, -4⟩], [], [-8, -1], 1⟩ 0 0
    (by with_unfolding_all decide) (by decide) (by decide) (by decide)
    (by with_unfolding_all decide)

/-- C7: the basis matrix built for the relaxed scaling function during pole
identification has Ns rows of N + max(n_polys, 1) entries with column N
identically 1 — the constant column is forced even when n_polys = 0 — whereas
the basis rebuilt for residue identification has Ns rows of exactly
N + n_polys entries, so no constant column is forced when n_polys = 0. -/
theorem C7_basis_columns (sdata : RArr K) (poles : List (Cx K)) (ci : List Nat)
    (Ns N Nc : Nat) :
    (DkPoleMat sdata poles ci Ns N Nc).length = Ns ∧
    (∀ row ∈ DkPoleMat sdata poles ci Ns N Nc, row.length = N + max Nc 1) ∧
    (∀ i, i < Ns → dkAt (DkPoleMat sdata poles ci Ns N Nc) i N = 1) ∧
    (DkResMat sdata poles ci Ns N Nc).length = Ns ∧
    (∀ row ∈ DkResMat sdata poles ci Ns N Nc, row.length = N + Nc) := by
  refine ⟨by simp [DkPoleMat], ?_, ?_, by simp [DkResMat], ?_⟩
  · intro row hrow
    rcases List.mem_map.mp hrow with ⟨i, _, hi⟩
    rw [← hi]
    simp
  · intro i hi
    unfold dkAt DkPoleMat
    rw [getD_rangeMap, if_pos hi, getD_rangeMap, if_pos (by omega)]
    unfold DkPoleEntry
    rw [if_neg (by omega), if_pos rfl]
  · intro row hrow
    rcases List.mem_map.mp hrow with ⟨i, _, hi⟩
    rw [← hi]
    simp

/-- Witness for C7 at a concrete basis with one real pole, two samples and
n_polys = 0: the pole basis has two rows of length 1 + max 0 1 = 2 with
column 1 identically one, the residue basis rows have length 1 + 0 = 1. -/
theorem C7_basis_columns_witness :
    (DkPoleMat (K:=ℚ) ⟨[2], [1, 2]⟩ [⟨-1, 0⟩] [0] 2 1 0).length = 2 ∧
    dkAt (DkPoleMat (K:=ℚ) ⟨[2], [1, 2]⟩ [⟨-1, 0⟩] [0] 2 1 0) 0 1 = 1 ∧
    ((DkPoleMat (K:=ℚ) ⟨[2], [1, 2]⟩ [⟨-1, 0⟩] [0] 2 1 0).getD 0 []).length = 1 + max 0 1 ∧
    ((DkResMat (K:=ℚ) ⟨[2], [1, 2]⟩ [⟨-1, 0⟩] [0] 2 1 0).getD 0 []).length = 1 + 0 :=
  ⟨(C7_basis_columns ⟨[2], [1, 2]⟩ [⟨-1, 0⟩] [0] 2 1 0).1,
   (C7_basis_columns ⟨[2], [1, 2]⟩ [⟨-1, 0⟩] [0] 2 1 0).2.2.1 0 (by decide),
   (C7_basis_columns ⟨[2], [1, 2]⟩ [⟨-1, 0⟩] [0] 2 1 0).2.1 _
     (by with_unfolding_all decide),
   (C7_basis_columns ⟨[2], [1, 2]⟩ [⟨-1, 0⟩] [0] 2 1 0).2.2.2.2 _
     (by with_unfolding_all decide)⟩

/-- C3 counterexample: at a sample point coinciding with a real pole (s = 2,
pole = 2) the residue-identification rebuild has a non-finite raw entry
(`none`) that the build of vectfit.cpp lines 349-365 does not replace — the
entry used in the solve is not the sentinel-substituted value — while the
pole-identification build of the very same entry does substitute the 1e18
sentinel, refuting the claim that the replacement happens in every
construction of the basis. -/
theorem C3_residue_rebuild_cex :
    DkResRawEntry (K:=ℚ) ⟨[1], [2]⟩ [⟨2, 0⟩] [0] 1 0 0 0 = none ∧
    DkResEntry (K:=ℚ) ⟨[1], [2]⟩ [⟨2, 0⟩] [0] 1 0 0 0 ≠
      (DkResRawEntry (K:=ℚ) ⟨[1], [2]⟩ [⟨2, 0⟩] [0] 1 0 0 0).getD ⟨TOLhigh, 0⟩ ∧
    DkPoleEntry (K:=ℚ) ⟨[1], [2]⟩ [⟨2, 0⟩] [0] 1 0 0 0 = ⟨TOLhigh, 0⟩ ∧
    dkAt (DkResMat (K:=ℚ) ⟨[1], [2]⟩ [⟨2, 0⟩] [0] 1 1 0) 0 0 ≠ ⟨TOLhigh, 0⟩ := by
  have hraw : DkResRawEntry (K:=ℚ) ⟨[1], [2]⟩ [⟨2, 0⟩] [0] 1 0 0 0 = none := by
    with_unfolding_all decide
  have hraw2 : baseColRaw (sAt (⟨[1], [2]⟩ : RArr ℚ) 0)
      (([⟨2, 0⟩] : List (Cx ℚ)).getD 0 0) (([0] : List Nat).getD 0 0) = none := by
    with_unfolding_all decide
  have hval : DkResEntry (K:=ℚ) ⟨[1], [2]⟩ [⟨2, 0⟩] [0] 1 0 0 0 = ⟨0, 0⟩ := by
    with_unfolding_all decide
  have hmat : dkAt (DkResMat (K:=ℚ) ⟨[1], [2]⟩ [⟨2, 0⟩] [0] 1 1 0) 0 0 = ⟨0, 0⟩ := by
    with_unfolding_all decide
  have hth : (TOLhigh : ℚ) ≠ 0 := by norm_num [TOLhigh]
  refine ⟨hraw, ?_, ?_, ?_⟩
  · rw [hval, hraw]
    intro h
    exact hth ((congrArg Cx.re h).symm : (TOLhigh : ℚ) = 0)
  · unfold DkPoleEntry
    rw [if_pos (by decide), hraw2]
    rfl
  · rw [hmat]
    intro h
    exact hth ((congrArg Cx.re h).symm : (TOLhigh : ℚ) = 0)



/-- C3 (amended): a non-finite basis entry arises exactly when a sample point
coincides with a (real) pole; in the pole-identification build any such entry
is replaced by the finite sentinel 1e18 before the matrix is used, but the
rebuild during residue identification performs no replacement — its entries
are the raw double values. -/
theorem C3_sentinel_pole_build_only :
    (∀ {K : Type} [inst : LinearOrderedField K] [inst2 : DecidableEq K]
       (sv : K) (p : Cx K) (t : Nat), (t = 0 ∨ t = 1 ∨ t = 2) →
       (baseColRaw sv p t = none ↔ (p.im = 0 ∧ sv = p.re))) ∧
    (∀ {K : Type} [inst : LinearOrderedField K] [inst2 : DecidableEq K]
       (sd : RArr K) (poles : List (Cx K)) (ci : List Nat) (N Nc i m : Nat), m < N →
       baseColRaw (sAt sd i) (poles.getD m 0) (ci.getD m 0) = none →
       DkPoleEntry sd poles ci N Nc i m = ⟨TOLhigh, 0⟩) ∧
    (∀ {K : Type} [inst : LinearOrderedField K] [inst2 : DecidableEq K]
       (sd : RArr K) (poles : List (Cx K)) (ci : List Nat) (N Nc i m : Nat) (z : Cx K),
       m < N → baseColRaw (sAt sd i) (poles.getD m 0) (ci.getD m 0) = some z →
       DkPoleEntry sd poles ci N Nc i m = z ∧ DkResEntry sd poles ci N Nc i m = z) ∧
    (∀ {K : Type} [inst : LinearOrderedField K] [inst2 : DecidableEq K]
       (sd : RArr K) (poles : List (Cx K)) (ci : List Nat) (N Nc i m : Nat), m < N →
       DkResEntry sd poles ci N Nc i m = baseColT (sAt sd i) (poles.getD m 0) (ci.getD m 0)) := by
  refine ⟨?_, ?_, ?_, ?_⟩
  · intro K _ _ sv p t ht
    exact baseColRaw_none_iff sv p t ht
  · intro K _ _ sd poles ci N Nc i m hm hraw
    unfold DkPoleEntry
    rw [if_pos hm, hraw]
    rfl
  · intro K _ _ sd poles ci N Nc i m z hm hraw
    constructor
    · unfold DkPoleEntry
      rw [if_pos hm, hraw]
      rfl
    · unfold DkResEntry
      rw [if_pos hm, baseColRaw_some _ _ _ _ hraw]
  · intro K _ _ sd poles ci N Nc i m hm
    unfold DkResEntry
    rw [if_pos hm]

/-- Witness for C3 (amended) at the concrete coinciding sample: the
characterization and the sentinel substitution in the pole build. -/
theorem C3_sentinel_pole_build_only_witness :
    (baseColRaw (2 : ℚ) ⟨2, 0⟩ 0 = none ↔ ((⟨2, 0⟩ : Cx ℚ).im = 0 ∧ (2 : ℚ) = (⟨2, 0⟩ : Cx ℚ).re)) ∧
    DkPoleEntry (K:=ℚ) ⟨[1], [2]⟩ [⟨2, 0⟩] [0] 1 0 0 0 = ⟨TOLhigh, 0⟩ :=
  ⟨C3_sentinel_pole_build_only.1 2 ⟨2, 0⟩ 0 (Or.inl rfl),
   C3_sentinel_pole_build_only.2.1 ⟨[1], [2]⟩ [⟨2, 0⟩] [0] 1 0 0 0 (by decide)
     (by with_unfolding_all decide)⟩

/-- C2: building the N x 1 selector SERB for the pole pair [1+2i, 1-2i, 5] the
source writes SERB(m, 1) and SERB(m+1, 1) — column index 1 of a single-column
matrix, outside its declared bounds; under the unchecked row-major addressing
actually executed, the buffer ends up [1, 2, 0]: the primary row keeps 1, the
conjugate row gets 2, and the following real-pole row gets 0 — not the
in-bounds [2, 0, 1] (2 on the primary, 0 on the conjugate, 1 on the real row)
that the claim describes. -/
theorem C2_serb_out_of_bounds :
    classifyFrom (K:=ℚ) [⟨1, 2⟩, ⟨1, -2⟩, ⟨5, 0⟩] 3 0 = .ok [1, 2, 0] ∧
    SERBaccesses [1, 2, 0] 3 = [(0, 1), (1, 1)] ∧
    (∃ q ∈ SERBaccesses [1, 2, 0] 3, ¬ q.2 < 1) ∧
    SERBflat (K:=ℚ) [1, 2, 0] 3 = [1, 2, 0] ∧
    SERBflat (K:=ℚ) [1, 2, 0] 3 ≠ [2, 0, 1] := by
  with_unfolding_all decide

/-- C1: at an input whose relaxed solve yields D = 0 the fallback triggers and
clamps D to 1, and the non-relaxed re-solve is computed — but its coefficient
vector (here [5]) is assigned to a block-local variable shadowing the outer C
(vectfit.cpp line 290), so the pole-update matrix is formed from the
relaxed-solve coefficients (here [0]) with the clamped D: the call returns the
eigenvalues of ZER built from the relaxed C (pole -1), not those of ZER built
from the re-solved C (pole -6). -/
theorem C1_fallback_resolve_discarded :
    poleSolveX c1Env ⟨[1, 2], [1, 1]⟩ ⟨[1, 2], [1, 1]⟩ ⟨[2], [1, 2]⟩ [⟨-1, 0⟩] [0] 1 2 1 0 =
      [0, 0] ∧
    (|(0 : ℚ)| < TOLlow ∨ TOLhigh < |(0 : ℚ)|) ∧
    clampD (0 : ℚ) = 1 ∧
    fallbackCvec c1Env ⟨[1, 2], [1, 1]⟩ ⟨[1, 2], [1, 1]⟩ ⟨[2], [1, 2]⟩ [⟨-1, 0⟩] [0] 1 2 1 0
      (clampD 0) = [5] ∧
    vectfit c1Env ⟨[1, 2], [1, 1]⟩ ⟨[2], [1, 2]⟩ ⟨[1], [⟨-1, 0⟩]⟩ ⟨[1, 2], [1, 1]⟩ 0 false true =
      .ok ⟨⟨[1, 1], [0]⟩, ⟨[1, 0], []⟩, ⟨[1], [⟨-1, 0⟩]⟩, 0, ⟨[1, 2], [0, 0]⟩⟩ ∧
    c1Env.eigvals (ZERmat [⟨-1, 0⟩] [0] [0] (clampD 0) 1) = [⟨-1, 0⟩] ∧
    c1Env.eigvals (ZERmat [⟨-1, 0⟩] [0]
      (fallbackCvec c1Env ⟨[1, 2], [1, 1]⟩ ⟨[1, 2], [1, 1]⟩ ⟨[2], [1, 2]⟩ [⟨-1, 0⟩] [0] 1 2 1 0
        (clampD 0)) (clampD 0) 1) = [⟨-6, 0⟩] ∧
    ([⟨-6, 0⟩] : List (Cx ℚ)) ≠ [⟨-1, 0⟩] := by
  with_unfolding_all decide

end VectFit
